import Mathlib

/-!
# Reedz — verification of the resolution scorer and bet lifecycle

Shallow embedding of the Reedz prediction-betting platform's core
(`scoring.py`, `models.py`, and the lifecycle operations of §4.2 of the
design document).  Database access (`supabase_db.get_bet`,
`get_predictions_for_bet`) is modelled by passing the bet and prediction
list as arguments; the `supabase_db.add_reedz(user_id, amount)` side
effects are modelled as the returned trace of `(user_id, amount)` calls,
in call order.  Python exceptions become `Except` errors.  Python floats
are modelled as exact rationals `ℚ`; `float(s)` string parsing is
modelled by `pyFloat`, and `.strip().lower()` by `pyNormalize`.
-/

/-- `models.py` `User`: platform account. `role` is the literal string
`"Admin"` or `"Member"`. -/
structure User where
  user_id : Nat
  username : String
  password : String
  email : String
  reedz_balance : Int
  role : String
  created_at : Nat
deriving Repr, DecidableEq

/-- `models.py` `Prediction`: one user's guess on one bet.  The guess is
kept as a free string, as in the source. -/
structure Prediction where
  prediction_id : Nat
  user_id : Nat
  bet_id : Nat
  prediction : String
  created_at : Nat
deriving Repr, DecidableEq

/-- `models.py` `Bet`: a betting market.  The constructor (`__init__`)
stores every argument verbatim; the trailing three fields carry the
Python default values `None`, `None`, `False`. -/
structure Bet where
  bet_id : Nat
  created_by_user_id : Nat
  title : String
  description : String
  answer_type : String
  is_open : Bool
  is_resolved : Bool
  created_at : Nat
  close_at : Nat
  resolved_at : Option Nat := none
  correct_answer : Option String := none
  is_closed : Bool := false
deriving Repr, DecidableEq

/-- Python `str.strip()`: drop leading and trailing whitespace.
(Defined on the character list so that it reduces definitionally.) -/
def pyStrip (s : String) : String :=
  ⟨((s.data.dropWhile Char.isWhitespace).reverse.dropWhile Char.isWhitespace).reverse⟩

/-- Python `str.lower()` (ASCII letters, which is all the scorer needs). -/
def pyLower (s : String) : String :=
  ⟨s.data.map Char.toLower⟩

/-- The scorer's text normalisation `.strip().lower()` (`scoring.py` lines 63, 70). -/
def pyNormalize (s : String) : String :=
  pyLower (pyStrip s)

/-- Reads a digit string as a natural number. -/
def digitsVal (cs : List Char) : Nat :=
  cs.foldl (fun a c => 10 * a + (c.toNat - 48)) 0

/-- Python `float(s)` on strings, modelled exactly on decimal literals
(optional sign, integer part, optional fractional part, surrounding
whitespace) and returning `none` where Python raises `ValueError`
(e.g. `float("abc")`).  Values are exact rationals. -/
def pyFloat (s : String) : Option ℚ :=
  let cs := (pyStrip s).data
  let signAndDigits : ℚ × List Char :=
    match cs with
    | '-' :: rest => (-1, rest)
    | '+' :: rest => (1, rest)
    | _ => (1, cs)
  let sign := signAndDigits.1
  let body := signAndDigits.2
  let intPart := body.takeWhile Char.isDigit
  let rest := body.dropWhile Char.isDigit
  match rest with
  | [] =>
      if intPart = [] then none
      else some (sign * (digitsVal intPart : ℚ))
  | '.' :: frac =>
      if frac.all Char.isDigit ∧ ¬(intPart = [] ∧ frac = []) then
        some (sign * ((digitsVal intPart : ℚ) +
          (digitsVal frac : ℚ) / ((10 : ℚ) ^ frac.length)))
      else none
  | _ => none

/-- Failures of `distribute_reedz_on_resolution` (Python exceptions). -/
inductive ScoreError where
  /-- `float(bet.correct_answer)` raised `ValueError`. -/
  | malformedAnswer
  /-- `float(pred.prediction)` raised `ValueError` for some prediction. -/
  | malformedPrediction
  /-- `bet.correct_answer` is `None` (`TypeError`/`AttributeError`). -/
  | missingAnswer
deriving Repr, DecidableEq

/-- Reward amounts are Python ints. -/
abbrev Score := Int

/-- Maps `f` over a list, failing as soon as `f` fails — the behaviour of
the Python list comprehension `[... float(pred.prediction) ...]`, which
raises on the first unparseable element. -/
def mapOption (f : α → Option β) : List α → Option (List β)
  | [] => some []
  | a :: l =>
    match f a, mapOption f l with
    | some b, some bs => some (b :: bs)
    | _, _ => none

/-- `positions = sorted(error_groups.keys())` (`scoring.py` line 44): the
distinct error distances in ascending order.  (`error_groups` is keyed by
the distinct error values of `sorted_preds`.) -/
def sortedPositions (errPairs : List (ℚ × Prediction)) : List ℚ :=
  List.insertionSort (· ≤ ·) (errPairs.map Prod.fst).dedup

/-- The inner loop of `scoring.py` lines 50–54: for each member of the
current error group, write `rank_points` into the `scores` dict, plus the
`+5` bonus when `float(pred.prediction) == correct`.  The dict is
modelled as a total function; only keys that are written are ever read
(every prediction's user is written, because every error distance occurs
in `positions`). -/
def scoreGroup (correct : ℚ) (rank_points : Score) (sc : Nat → Score) :
    List Prediction → Nat → Score
  | [], u => sc u
  | p :: rest, u =>
    scoreGroup correct rank_points
      (fun v => if v = p.user_id then
          (if pyFloat p.prediction = some correct then rank_points + 5 else rank_points)
        else sc v)
      rest u

/-- The outer loop of `scoring.py` lines 46–56: walk the sorted distinct
error distances, score each group (`users_in_group`, in original
prediction order — Python's stable sort keeps equal-error predictions in
input order), and advance the running counter `given` by the group's
size.  State is the pair (`scores` dict, `given`). -/
def scoreGroups (n : Nat) (correct : ℚ) (errPairs : List (ℚ × Prediction)) :
    List ℚ → (Nat → Score) × Nat → (Nat → Score) × Nat
  | [], st => st
  | error :: restPos, (sc, given) =>
    let users_in_group := (errPairs.filter (fun ep => ep.1 = error)).map Prod.snd
    let rank_points : Score := (n : Int) - (given : Int)
    scoreGroups n correct errPairs restPos
      (fun u => scoreGroup correct rank_points sc users_in_group u,
       given + users_in_group.length)

/-- `scoring.py` `distribute_reedz_on_resolution`, with the database
reads passed in (`bet`, `predictions`) and the `add_reedz` calls returned
as an ordered trace of `(user_id, amount)` pairs. -/
def distribute_reedz_on_resolution (bet : Bet) (predictions : List Prediction) :
    Except ScoreError (List (Nat × Score)) :=
  let num_predictions := predictions.length
  if num_predictions = 0 then
    -- no predictions = no rewards
    .ok []
  else if bet.answer_type = "number" then
    match bet.correct_answer with
    | none => .error .missingAnswer
    | some ans =>
      match pyFloat ans with
      | none => .error .malformedAnswer
      | some correct =>
        match mapOption
            (fun pred => (pyFloat pred.prediction).map (fun v => (|v - correct|, pred)))
            predictions with
        | none => .error .malformedPrediction
        | some errPairs =>
          let positions := sortedPositions errPairs
          let scores := (scoreGroups num_predictions correct errPairs positions
            (fun _ => 0, 0)).1
          .ok (predictions.map (fun pred => (pred.user_id, scores pred.user_id)))
  else if bet.answer_type = "text" then
    match bet.correct_answer with
    | none => .error .missingAnswer
    | some ans =>
      let correct_answer := pyNormalize ans
      -- `matches` / `nonmatches` in the source
      let matched := predictions.filter (fun pred => pyNormalize pred.prediction = correct_answer)
      let nonmatched :=
        predictions.filter (fun pred => ¬(pyNormalize pred.prediction = correct_answer))
      let num := matched.length + nonmatched.length
      .ok (matched.map (fun pred => (pred.user_id, (num : Score) + 5)) ++
           nonmatched.map (fun pred => (pred.user_id, (0 : Score))))
  else
    -- unsupported answer_type: the source falls through both branches
    .ok []

deriving instance DecidableEq for Except

/-- Total amount credited to one user by a trace of `add_reedz` calls. -/
def totalCredit (calls : List (Nat × Score)) (u : Nat) : Score :=
  ((calls.filter (fun c => c.1 = u)).map (fun c => c.2)).sum

/-- `auth.py` `is_admin`: direct role comparison. -/
def is_admin (user : User) : Bool :=
  user.role = "Admin"

/-- `auth.py` `can_place_prediction`: Admins and Members may predict. -/
def can_place_prediction (user : User) : Bool :=
  decide (user.role = "Admin") || decide (user.role = "Member")

/-- Errors of the lifecycle operations (§7 of the design document). -/
inductive BetError where
  | unauthorized
  | invalidState
deriving Repr, DecidableEq

/-- Modelled from the spec: `betting.place_prediction` is imported by
`main.py` and `streamlit_app.py`, but `betting.py` is not among the
provided sources.  Per §4.2 it requires that the bet exists (the bet is
passed in directly here), that `bet.is_open` is true, and that the
user's role is `Admin` or `Member`; §8 fixes the state check: it must
fail with `InvalidState` whenever `is_open` is false.  On success it
creates the prediction (id assigned by the store, modelled as 0). -/
def place_prediction (user : User) (bet : Bet) (value : String) (now : Nat) :
    Except BetError Prediction :=
  if bet.is_open = false then .error .invalidState
  else if can_place_prediction user = false then .error .unauthorized
  else .ok { prediction_id := 0, user_id := user.user_id, bet_id := bet.bet_id,
             prediction := value, created_at := now }

/-- Modelled from the spec: `betting.resolve_bet` is imported by
`main.py` and `streamlit_app.py`, but `betting.py` is not among the
provided sources.  Per §4.2, `resolve` requires the caller to be an
Admin and `bet.is_closed == true`; §8 fixes the state check: it must
fail with `InvalidState` whenever `is_closed` is false.  On success it
sets `correct_answer`, `is_resolved`, `resolved_at`, then invokes the
scorer synchronously with all predictions tied to the bet; the updated
bet and the scorer's outcome are returned. -/
def resolve_bet (user : User) (bet : Bet) (answer : String)
    (predictions : List Prediction) (now : Nat) :
    Except BetError (Bet × Except ScoreError (List (Nat × Score))) :=
  if bet.is_closed = false then .error .invalidState
  else if is_admin user = false then .error .unauthorized
  else
    let resolved :=
      { bet with is_resolved := true, correct_answer := some answer,
                 resolved_at := some now }
    .ok (resolved, distribute_reedz_on_resolution resolved predictions)

/-- Lifecycle state "open" (§4.2). -/
def stateOpen (b : Bet) : Bool := b.is_open

/-- Lifecycle state "closed, not yet resolved" (§4.2). -/
def stateClosedNotResolved (b : Bet) : Bool := b.is_closed && !b.is_resolved

/-- Lifecycle state "resolved" (§4.2). -/
def stateResolved (b : Bet) : Bool := b.is_resolved

/-- The Bet state invariant stated in §3 of the design document: at most
one of {open, closed-not-resolved, resolved} holds, `is_resolved`
implies `is_closed`, and `correct_answer` is set iff `is_resolved`. -/
def betInvariant (b : Bet) : Prop :=
  (¬(stateOpen b ∧ stateClosedNotResolved b)) ∧
  (¬(stateOpen b ∧ stateResolved b)) ∧
  (¬(stateClosedNotResolved b ∧ stateResolved b)) ∧
  (stateResolved b → b.is_closed) ∧
  (b.correct_answer.isSome ↔ stateResolved b)

/-! ## Concrete inputs (the scenarios of §8, plus variants) -/

/-- Scenario A: a resolved number bet with correct answer `"10"`. -/
def scenABet : Bet :=
  { bet_id := 1, created_by_user_id := 9, title := "t", description := "d",
    answer_type := "number", is_open := false, is_resolved := true, created_at := 0,
    close_at := 0, resolved_at := some 1, correct_answer := some "10", is_closed := true }

/-- Scenario A predictions: u1 ↦ 8, u2 ↦ 10, u3 ↦ 12. -/
def scenAPreds : List Prediction :=
  [⟨1, 1, 1, "8", 0⟩, ⟨2, 2, 1, "10", 0⟩, ⟨3, 3, 1, "12", 0⟩]

/-- Parsed values of concrete number predictions. -/
def scenAVals (p : Prediction) : ℚ :=
  (pyFloat p.prediction).getD 0

/-- Scenario B: a resolved text bet with correct answer `"Paris"`. -/
def scenBBet : Bet :=
  { scenABet with answer_type := "text", correct_answer := some "Paris" }

/-- Scenario B predictions: u1 ↦ "paris", u2 ↦ "London". -/
def scenBPreds : List Prediction :=
  [⟨1, 1, 1, "paris", 0⟩, ⟨2, 2, 1, "London", 0⟩]

/-- Scenario D: a number bet with unparseable correct answer `"abc"`. -/
def scenDBet : Bet :=
  { scenABet with correct_answer := some "abc" }

/-- Number predictions in which user 1 predicts twice (10 and 12). -/
def dupPreds : List Prediction :=
  [⟨1, 1, 1, "10", 0⟩, ⟨2, 1, 1, "12", 0⟩, ⟨3, 2, 1, "10", 0⟩]

/-- A bet with an unsupported answer type. -/
def yesNoBet : Bet :=
  { scenABet with answer_type := "yes/no" }

/-- Text bet whose answer carries extra whitespace and upper case. -/
def wsBet : Bet :=
  { scenABet with answer_type := "text", correct_answer := some " PARIS" }

/-- The same text bet with the answer normalised. -/
def wsBetNorm : Bet :=
  { scenABet with answer_type := "text", correct_answer := some "paris" }

/-- A prediction with surrounding whitespace and mixed case. -/
def wsPreds : List Prediction := [⟨1, 1, 1, "  Paris", 0⟩]

/-- The same prediction, differently spaced and cased. -/
def wsPredsNorm : List Prediction := [⟨1, 1, 1, "paris ", 0⟩]

/-- A Member user for the lifecycle witnesses. -/
def memberUser : User :=
  { user_id := 1, username := "m", password := "h", email := "e",
    reedz_balance := 0, role := "Member", created_at := 0 }

/-- An open bet (not yet closed). -/
def openBet : Bet :=
  { scenABet with
    is_open := true, is_resolved := false,
    correct_answer := none, resolved_at := none, is_closed := false }

/-- A closed, unresolved bet. -/
def closedBet : Bet :=
  { scenABet with
    is_open := false, is_resolved := false,
    correct_answer := none, resolved_at := none, is_closed := true }

/-! ## Helper lemmas -/

theorem mapOption_eq_some_map (f : α → Option β) (g : α → β) :
    ∀ l : List α, (∀ a ∈ l, f a = some (g a)) → mapOption f l = some (l.map g)
  | [], _ => rfl
  | a :: l, h => by
    have ha := h a (List.mem_cons_self a l)
    have hl := mapOption_eq_some_map f g l (fun b hb => h b (List.mem_cons_of_mem a hb))
    simp [mapOption, ha, hl]

theorem mapOption_length (f : α → Option β) :
    ∀ (l : List α) (l' : List β), mapOption f l = some l' → l'.length = l.length
  | [], l', h => by
    simp only [mapOption, Option.some.injEq] at h
    simp [← h]
  | a :: l, l', h => by
    simp only [mapOption] at h
    cases hfa : f a with
    | none => rw [hfa] at h; exact absurd h (by simp)
    | some b =>
      cases hml : mapOption f l with
      | none => rw [hfa, hml] at h; exact absurd h (by simp)
      | some bs =>
        rw [hfa, hml] at h
        simp only [Option.some.injEq] at h
        subst h
        simp [mapOption_length f l bs hml]

theorem countP_or_disjoint (q r : α → Bool) :
    ∀ l : List α, (∀ a ∈ l, ¬(q a = true ∧ r a = true)) →
      l.countP (fun a => q a || r a) = l.countP q + l.countP r
  | [], _ => rfl
  | a :: l, h => by
    have hl := countP_or_disjoint q r l (fun b hb => h b (List.mem_cons_of_mem a hb))
    have ha := h a (List.mem_cons_self a l)
    simp only [List.countP_cons, hl]
    cases hq : q a <;> cases hr : r a <;> simp [hq, hr] at ha ⊢ <;> omega

/-! ## Properties of `sortedPositions` -/

theorem mem_sortedPositions {errPairs : List (ℚ × Prediction)} {x : ℚ} :
    x ∈ sortedPositions errPairs ↔ x ∈ errPairs.map Prod.fst := by
  unfold sortedPositions
  rw [(List.perm_insertionSort _ _).mem_iff, List.mem_dedup]

theorem sortedPositions_nodup (errPairs : List (ℚ × Prediction)) :
    (sortedPositions errPairs).Nodup :=
  (List.perm_insertionSort _ _).nodup_iff.2 (List.nodup_dedup _)

theorem sortedPositions_sorted_lt (errPairs : List (ℚ × Prediction)) :
    (sortedPositions errPairs).Sorted (· < ·) :=
  (List.sorted_insertionSort _ _).lt_of_le (sortedPositions_nodup errPairs)

/-! ## Properties of `scoreGroup` (the inner write loop) -/

theorem scoreGroup_no_user (correct : ℚ) (rank_points : Score) :
    ∀ (group : List Prediction) (sc : Nat → Score) (u : Nat),
      (∀ p ∈ group, p.user_id ≠ u) →
      scoreGroup correct rank_points sc group u = sc u
  | [], _, _, _ => rfl
  | p :: rest, sc, u, h => by
    have hp : p.user_id ≠ u := h p (List.mem_cons_self p rest)
    rw [scoreGroup,
      scoreGroup_no_user correct rank_points rest _ u
        (fun q hq => h q (List.mem_cons_of_mem p hq))]
    simp [Ne.symm hp]

theorem scoreGroup_write (correct : ℚ) (rank_points : Score) (V : Score) :
    ∀ (group : List Prediction) (sc : Nat → Score) (u : Nat),
      (∀ p ∈ group, p.user_id = u →
        (if pyFloat p.prediction = some correct then rank_points + 5 else rank_points) = V) →
      (∃ p ∈ group, p.user_id = u) →
      scoreGroup correct rank_points sc group u = V
  | [], _, _, _, hex => by simp at hex
  | p :: rest, sc, u, hval, hex => by
    by_cases hrest : ∃ q ∈ rest, q.user_id = u
    · rw [scoreGroup]
      exact scoreGroup_write correct rank_points V rest _ u
        (fun q hq => hval q (List.mem_cons_of_mem p hq)) hrest
    · have hp : p.user_id = u := by
        rcases hex with ⟨q, hq, hqu⟩
        rcases List.mem_cons.1 hq with rfl | hq'
        · exact hqu
        · exact absurd ⟨q, hq', hqu⟩ hrest
      rw [scoreGroup,
        scoreGroup_no_user correct rank_points rest _ u
          (fun q hq hqu => hrest ⟨q, hq, hqu⟩)]
      rw [if_pos hp.symm]
      exact hval p (List.mem_cons_self p rest) hp

theorem scoreGroup_nonneg (correct : ℚ) {rank_points : Score} (hrp : 0 ≤ rank_points) :
    ∀ (group : List Prediction) (sc : Nat → Score), (∀ v, 0 ≤ sc v) →
      ∀ u, 0 ≤ scoreGroup correct rank_points sc group u
  | [], _, hsc, u => hsc u
  | p :: rest, sc, hsc, u => by
    rw [scoreGroup]
    refine scoreGroup_nonneg correct hrp rest _ (fun v => ?_) u
    by_cases hv : v = p.user_id
    · rw [if_pos hv]
      split <;> linarith
    · rw [if_neg hv]
      exact hsc v

/-! ## Properties of `scoreGroups` (the outer ranking loop) -/

theorem scoreGroups_no_user (n : Nat) (correct : ℚ) (errPairs : List (ℚ × Prediction)) :
    ∀ (pos : List ℚ) (sc : Nat → Score) (given : Nat) (u : Nat),
      (∀ ep ∈ errPairs, ep.1 ∈ pos → ep.2.user_id ≠ u) →
      (scoreGroups n correct errPairs pos (sc, given)).1 u = sc u
  | [], _, _, _, _ => rfl
  | e :: rest, sc, given, u, h => by
    simp only [scoreGroups]
    rw [scoreGroups_no_user n correct errPairs rest _ _ u
      (fun ep hep he => h ep hep (List.mem_cons_of_mem e he))]
    refine scoreGroup_no_user _ _ _ _ _ ?_
    intro p hp
    rcases List.mem_map.1 hp with ⟨ep, hep, rfl⟩
    have hf := List.mem_filter.1 hep
    have hfe : ep.1 = e := by simpa using hf.2
    exact h ep hf.1 (hfe ▸ List.mem_cons_self e rest)

/-- Size of the group at error distance `e`. -/
theorem group_length (errPairs : List (ℚ × Prediction)) (e : ℚ) :
    ((errPairs.filter (fun ep => ep.1 = e)).map Prod.snd).length
      = errPairs.countP (fun ep => decide (ep.1 = e)) := by
  rw [List.length_map, ← List.countP_eq_length_filter]

theorem scoreGroups_nonneg (n : Nat) (correct : ℚ) (errPairs : List (ℚ × Prediction)) :
    ∀ (pos : List ℚ) (sc : Nat → Score) (given : Nat),
      pos.Nodup →
      (∀ v, 0 ≤ sc v) →
      given + errPairs.countP (fun ep => decide (ep.1 ∈ pos)) ≤ n →
      ∀ u, 0 ≤ (scoreGroups n correct errPairs pos (sc, given)).1 u
  | [], _, _, _, hsc, _, u => hsc u
  | e :: rest, sc, given, hnd, hsc, hb, u => by
    have hsplit : errPairs.countP (fun ep => decide (ep.1 ∈ e :: rest))
        = errPairs.countP (fun ep => decide (ep.1 = e))
          + errPairs.countP (fun ep => decide (ep.1 ∈ rest)) := by
      have hdisj : ∀ ep ∈ errPairs,
          ¬((fun ep => decide (ep.1 = e)) ep = true ∧
            (fun ep => decide (ep.1 ∈ rest)) ep = true) := by
        intro ep _
        rintro ⟨h1, h2⟩
        simp only [decide_eq_true_eq] at h1 h2
        exact (List.nodup_cons.1 hnd).1 (h1 ▸ h2)
      rw [← countP_or_disjoint _ _ errPairs hdisj]
      apply List.countP_congr
      intro ep _
      simp [List.mem_cons]
    simp only [scoreGroups]
    refine scoreGroups_nonneg n correct errPairs rest _ _
      (List.nodup_cons.1 hnd).2 (fun v => ?_) ?_ u
    · refine scoreGroup_nonneg correct ?_ _ _ hsc v
      have h1 : given ≤ n := le_trans (Nat.le_add_right _ _) hb
      have h2 : (given : Int) ≤ (n : Int) := by exact_mod_cast h1
      linarith
    · rw [group_length]
      omega

theorem scoreGroups_score (n : Nat) (correct : ℚ) (errPairs : List (ℚ × Prediction))
    (hparse : ∀ ep ∈ errPairs, ∃ v, pyFloat ep.2.prediction = some v ∧ |v - correct| = ep.1) :
    ∀ (pos : List ℚ) (sc : Nat → Score) (given : Nat) (u : Nat) (e : ℚ),
      pos.Sorted (· < ·) →
      (∀ ep ∈ errPairs, ep.1 ∈ pos ∨ ∀ x ∈ pos, ep.1 < x) →
      given = errPairs.countP (fun ep => decide (∀ x ∈ pos, ep.1 < x)) →
      e ∈ pos →
      (∃ p, (e, p) ∈ errPairs ∧ p.user_id = u) →
      (∀ ep ∈ errPairs, ep.2.user_id = u → ep.1 ≤ e) →
      (scoreGroups n correct errPairs pos (sc, given)).1 u =
        ((n : Int) - (errPairs.countP (fun ep => decide (ep.1 < e)) : Int)) +
          (if e = 0 then 5 else 0)
  | [], _, _, _, _, _, _, _, he, _, _ => absurd he (List.not_mem_nil _)
  | e' :: rest, sc, given, u, e, hsort, hcover, hgiven, he, hmem, hmax => by
    have hlt : ∀ x ∈ rest, e' < x := (List.sorted_cons.1 hsort).1
    have hsort' : rest.Sorted (· < ·) := (List.sorted_cons.1 hsort).2
    have hcover' : ∀ ep ∈ errPairs, ep.1 ∈ rest ∨ ∀ x ∈ rest, ep.1 < x := by
      intro ep hep
      rcases hcover ep hep with h | h
      · rcases List.mem_cons.1 h with h1 | h1
        · exact Or.inr (fun x hx => h1 ▸ hlt x hx)
        · exact Or.inl h1
      · exact Or.inr (fun x hx => h x (List.mem_cons_of_mem e' hx))
    have hgiven' : given + ((errPairs.filter (fun ep => ep.1 = e')).map Prod.snd).length
        = errPairs.countP (fun ep => decide (∀ x ∈ rest, ep.1 < x)) := by
      have hdisj : ∀ ep ∈ errPairs,
          ¬((fun ep => decide (∀ x ∈ e' :: rest, ep.1 < x)) ep = true ∧
            (fun ep => decide (ep.1 = e')) ep = true) := by
        intro ep _
        rintro ⟨h1, h2⟩
        simp only [decide_eq_true_eq] at h1 h2
        exact lt_irrefl e' (h2 ▸ h1 e' (List.mem_cons_self e' rest))
      rw [group_length, hgiven, ← countP_or_disjoint _ _ errPairs hdisj]
      apply List.countP_congr
      intro ep hep
      simp only [decide_eq_true_eq, Bool.or_eq_true]
      constructor
      · rintro (h | h)
        · exact fun x hx => h x (List.mem_cons_of_mem e' hx)
        · exact fun x hx => h ▸ hlt x hx
      · intro hall
        rcases hcover ep hep with h | h
        · rcases List.mem_cons.1 h with h1 | h1
          · exact Or.inr h1
          · exact absurd (hall ep.1 h1) (lt_irrefl ep.1)
        · exact Or.inl h
    simp only [scoreGroups]
    rcases List.mem_cons.1 he with rfl | he'
    · -- the head group is `u`'s final (largest-error) group
      rw [scoreGroups_no_user n correct errPairs rest _ _ u
        (fun ep hep hin hu => absurd (hmax ep hep hu) (not_le.2 (hlt _ hin)))]
      have hcnt : errPairs.countP (fun ep => decide (ep.1 < e)) = given := by
        rw [hgiven]
        apply List.countP_congr
        intro ep hep
        simp only [decide_eq_true_eq]
        constructor
        · intro h x hx
          rcases List.mem_cons.1 hx with rfl | hx'
          · exact h
          · exact lt_trans h (hlt x hx')
        · intro h
          exact h e (List.mem_cons_self e rest)
      refine (scoreGroup_write correct ((n : Int) - (given : Int))
        (((n : Int) - (given : Int)) + (if e = 0 then 5 else 0)) _ sc u ?_ ?_).trans ?_
      · intro p hp hpu
        rcases List.mem_map.1 hp with ⟨ep, hep, rfl⟩
        have hf := List.mem_filter.1 hep
        have hfe : ep.1 = e := by simpa using hf.2
        rcases hparse ep hf.1 with ⟨v, hv, hve⟩
        by_cases he0 : e = 0
        · have : v = correct := by
            have : |v - correct| = 0 := by rw [hve, hfe, he0]
            have := abs_eq_zero.1 this
            linarith [sub_eq_zero.1 this]
          rw [hv, this, if_pos rfl, if_pos he0]
        · have hvc : v ≠ correct := by
            intro hvc
            apply he0
            rw [← hfe, ← hve, hvc, sub_self, abs_zero]
          rw [hv, if_neg (by simpa using hvc), if_neg he0, add_zero]
      · rcases hmem with ⟨p, hpe, hpu⟩
        exact ⟨p, List.mem_map.2 ⟨(e, p), List.mem_filter.2 ⟨hpe, by simp⟩, rfl⟩, hpu⟩
      · rw [hcnt]
    · -- `u`'s final group lies further down the sorted positions
      exact scoreGroups_score n correct errPairs hparse rest _ _ u e
        hsort' hcover' hgiven' he' hmem hmax

/-! ## Unfolding the branches of `distribute_reedz_on_resolution` -/

/-- No predictions: the scorer returns at once, with no `add_reedz` call. -/
theorem distribute_nil (bet : Bet) :
    distribute_reedz_on_resolution bet [] = .ok [] := rfl

/-- Number branch, everything parseable: the trace has one call per
prediction, in prediction order, reading the final `scores` dict. -/
theorem distribute_number_ok (bet : Bet) (preds : List Prediction) (ans : String) (c : ℚ)
    (vals : Prediction → ℚ)
    (hty : bet.answer_type = "number") (hne : preds ≠ [])
    (hca : bet.correct_answer = some ans) (hc : pyFloat ans = some c)
    (hvals : ∀ p ∈ preds, pyFloat p.prediction = some (vals p)) :
    distribute_reedz_on_resolution bet preds =
      .ok (preds.map (fun p => (p.user_id,
        (scoreGroups preds.length c (preds.map (fun q => (|vals q - c|, q)))
          (sortedPositions (preds.map (fun q => (|vals q - c|, q)))) (fun _ => 0, 0)).1
          p.user_id))) := by
  have hmap : mapOption (fun pred => (pyFloat pred.prediction).map (fun v => (|v - c|, pred)))
      preds = some (preds.map (fun q => (|vals q - c|, q))) :=
    mapOption_eq_some_map _ _ preds (fun p hp => by rw [hvals p hp]; rfl)
  simp [distribute_reedz_on_resolution, hty, hca, hc, hmap, hne, List.length_eq_zero]

/-- Text branch with an answer present: matches are credited `num + 5`,
non-matches `0`, matches first. -/
theorem distribute_text_ok (bet : Bet) (preds : List Prediction) (ans : String)
    (hty : bet.answer_type = "text") (hne : preds ≠ [])
    (hca : bet.correct_answer = some ans) :
    distribute_reedz_on_resolution bet preds =
      .ok ((preds.filter (fun p => pyNormalize p.prediction = pyNormalize ans)).map
            (fun p => (p.user_id,
              (((preds.filter (fun p => pyNormalize p.prediction = pyNormalize ans)).length +
                (preds.filter
                  (fun p => ¬(pyNormalize p.prediction = pyNormalize ans))).length : Nat) :
                Score) + 5)) ++
          (preds.filter (fun p => ¬(pyNormalize p.prediction = pyNormalize ans))).map
            (fun p => (p.user_id, (0 : Score)))) := by
  have hnum : bet.answer_type ≠ "number" := by rw [hty]; decide
  simp [distribute_reedz_on_resolution, hty, hca, hne, hnum, List.length_eq_zero]

/-- Per-user closed form for the number branch: the final `scores` entry
of a user is `n` minus the number of strictly more accurate predictions
counted at the user's largest error distance `e`, plus the `+5` bonus
exactly when `e = 0`. -/
theorem number_scores_closed_form (preds : List Prediction) (c : ℚ) (vals : Prediction → ℚ)
    (hvals : ∀ p ∈ preds, pyFloat p.prediction = some (vals p))
    (u : Nat) (e : ℚ)
    (hmem : ∃ p ∈ preds, p.user_id = u ∧ |vals p - c| = e)
    (hmax : ∀ p ∈ preds, p.user_id = u → |vals p - c| ≤ e) :
    (scoreGroups preds.length c (preds.map (fun q => (|vals q - c|, q)))
        (sortedPositions (preds.map (fun q => (|vals q - c|, q)))) (fun _ => 0, 0)).1 u =
      ((preds.length : Int) - (preds.countP (fun q => decide (|vals q - c| < e)) : Int)) +
        (if e = 0 then 5 else 0) := by
  have hparse : ∀ ep ∈ preds.map (fun q => (|vals q - c|, q)),
      ∃ v, pyFloat ep.2.prediction = some v ∧ |v - c| = ep.1 := by
    intro ep hep
    rcases List.mem_map.1 hep with ⟨p, hp, rfl⟩
    exact ⟨vals p, hvals p hp, rfl⟩
  have hcnt : (preds.map (fun q => (|vals q - c|, q))).countP (fun ep => decide (ep.1 < e))
      = preds.countP (fun q => decide (|vals q - c| < e)) := by
    rw [List.countP_map]; rfl
  rw [← hcnt]
  apply scoreGroups_score _ _ _ hparse
  · exact sortedPositions_sorted_lt _
  · exact fun ep hep => Or.inl (mem_sortedPositions.2 (List.mem_map_of_mem Prod.fst hep))
  · symm
    rw [List.countP_eq_zero]
    intro ep hep hall
    simp only [decide_eq_true_eq] at hall
    exact lt_irrefl ep.1
      (hall ep.1 (mem_sortedPositions.2 (List.mem_map_of_mem Prod.fst hep)))
  · rcases hmem with ⟨p, hp, _, hpe⟩
    exact mem_sortedPositions.2
      (List.mem_map.2 ⟨(|vals p - c|, p), List.mem_map_of_mem _ hp, hpe⟩)
  · rcases hmem with ⟨p, hp, hpu, hpe⟩
    exact ⟨p, by rw [← hpe]; exact List.mem_map_of_mem _ hp, hpu⟩
  · intro ep hep hu
    rcases List.mem_map.1 hep with ⟨q, hq, rfl⟩
    exact hmax q hq hu

/-! ## `totalCredit` and filter lemmas -/

theorem totalCredit_append (l₁ l₂ : List (Nat × Score)) (u : Nat) :
    totalCredit (l₁ ++ l₂) u = totalCredit l₁ u + totalCredit l₂ u := by
  simp [totalCredit, List.filter_append]

theorem totalCredit_map (f : Prediction → Score) (l : List Prediction) (u : Nat) :
    totalCredit (l.map (fun q => (q.user_id, f q))) u
      = ((l.filter (fun q => q.user_id = u)).map f).sum := by
  simp only [totalCredit, List.filter_map, List.map_map]
  rfl

/-- With pairwise distinct user ids, the predictions of `p`'s user are
exactly `[p]`. -/
theorem filter_user_eq_singleton :
    ∀ (preds : List Prediction), (preds.map Prediction.user_id).Nodup →
      ∀ p ∈ preds, preds.filter (fun q => q.user_id = p.user_id) = [p]
  | [], _, p, hp => absurd hp (List.not_mem_nil p)
  | a :: rest, hnd, p, hp => by
    rw [List.map_cons, List.nodup_cons] at hnd
    rcases List.mem_cons.1 hp with rfl | hp'
    · rw [List.filter_cons_of_pos (by simp)]
      have hrest : rest.filter (fun q => q.user_id = p.user_id) = [] := by
        rw [List.filter_eq_nil_iff]
        intro q hq
        simp only [decide_eq_true_eq]
        intro hqu
        exact hnd.1 (hqu ▸ List.mem_map_of_mem Prediction.user_id hq)
      rw [hrest]
    · have hau : ¬(a.user_id = p.user_id) := by
        intro h
        exact hnd.1 (h ▸ List.mem_map_of_mem Prediction.user_id hp')
      rw [List.filter_cons_of_neg (by simpa using hau)]
      exact filter_user_eq_singleton rest hnd.2 p hp'

/-- A decidable predicate and its negation partition a list. -/
theorem length_filter_partition {α : Type _} (P : α → Prop) [DecidablePred P] :
    ∀ l : List α,
      (l.filter (fun a => P a)).length + (l.filter (fun a => ¬ P a)).length = l.length
  | [] => rfl
  | a :: l => by
    have ih := length_filter_partition P l
    by_cases h : P a <;> simp [List.filter_cons, h, decide_not] at ih ⊢ <;> omega

/-! ## `Forall₂` transfer lemmas (for the normalisation invariance) -/

theorem forall₂_filter {α : Type _} {R : α → α → Prop} {p q : α → Bool}
    (hpq : ∀ a b, R a b → p a = q b) {l l' : List α} (h : List.Forall₂ R l l') :
    List.Forall₂ R (l.filter p) (l'.filter q) := by
  induction h with
  | nil => exact List.Forall₂.nil
  | cons hab _ ih =>
    rename_i a b la lb _
    cases hpa : p a
    · rw [List.filter_cons_of_neg (by simp [hpa]),
        List.filter_cons_of_neg (by simp [← hpq a b hab, hpa])]
      exact ih
    · rw [List.filter_cons_of_pos hpa,
        List.filter_cons_of_pos (by rw [← hpq a b hab]; exact hpa)]
      exact List.Forall₂.cons hab ih

theorem map_eq_of_forall₂ {α β : Type _} {R : α → α → Prop} {f g : α → β}
    (hfg : ∀ a b, R a b → f a = g b) {l l' : List α} (h : List.Forall₂ R l l') :
    l.map f = l'.map g := by
  induction h with
  | nil => rfl
  | cons hab _ ih => simp only [List.map_cons, hfg _ _ hab, ih]

/-! ## Claims -/

/-- C1: on a number-type bet whose correct answer parses and whose
predictions all parse, with at most one prediction per user, every
predicting user is credited exactly `base = n − given`, where `n` is the
number of predictions and `given` counts the predictions with strictly
smaller absolute error, plus a flat `+5` exactly when the predicted
value equals the correct value; consequently (second conjunct) a
uniquely closest prediction has `given = 0`, i.e. receives base `n`. -/
theorem number_bet_rank_scoring (bet : Bet) (preds : List Prediction) (ans : String) (c : ℚ)
    (vals : Prediction → ℚ)
    (hty : bet.answer_type = "number") (hne : preds ≠ [])
    (hca : bet.correct_answer = some ans) (hc : pyFloat ans = some c)
    (hvals : ∀ p ∈ preds, pyFloat p.prediction = some (vals p))
    (hnodup : (preds.map Prediction.user_id).Nodup) :
    distribute_reedz_on_resolution bet preds =
      .ok (preds.map (fun p => (p.user_id,
        ((preds.length : Int) -
          (preds.countP (fun q => decide (|vals q - c| < |vals p - c|)) : Int)) +
          (if vals p = c then 5 else 0)))) ∧
      ∀ p ∈ preds, (∀ q ∈ preds, q ≠ p → |vals p - c| < |vals q - c|) →
        preds.countP (fun q => decide (|vals q - c| < |vals p - c|)) = 0 := by
  constructor
  · rw [distribute_number_ok bet preds ans c vals hty hne hca hc hvals]
    refine congrArg Except.ok (List.map_congr_left ?_)
    intro p hp
    have hmax : ∀ q ∈ preds, q.user_id = p.user_id → |vals q - c| ≤ |vals p - c| :=
      fun q hq hqu => le_of_eq (by rw [List.inj_on_of_nodup_map hnodup hq hp hqu])
    rw [number_scores_closed_form preds c vals hvals p.user_id (|vals p - c|)
      ⟨p, hp, rfl, rfl⟩ hmax]
    have hbonus : (if |vals p - c| = 0 then (5 : Score) else 0)
        = (if vals p = c then 5 else 0) := by
      by_cases hvc : vals p = c
      · rw [if_pos hvc, if_pos (by rw [hvc, sub_self, abs_zero])]
      · rw [if_neg hvc, if_neg (fun h => hvc (sub_eq_zero.1 (abs_eq_zero.1 h)))]
    rw [hbonus]
  · intro p hp hclosest
    rw [List.countP_eq_zero]
    intro q hq
    simp only [decide_eq_true_eq, not_lt]
    rcases eq_or_ne q p with rfl | hqp
    · exact le_refl _
    · exact le_of_lt (hclosest q hq hqp)

/-- C3: on a number-type bet whose correct answer does not parse as a
float, the scorer fails before any balance-increment call; the error
trace is empty (an `error` result carries no calls). -/
theorem malformed_number_answer_fatal (bet : Bet) (preds : List Prediction) (ans : String)
    (hty : bet.answer_type = "number") (hne : preds ≠ [])
    (hca : bet.correct_answer = some ans) (hbad : pyFloat ans = none) :
    distribute_reedz_on_resolution bet preds = .error .malformedAnswer := by
  simp [distribute_reedz_on_resolution, hty, hca, hbad, hne, List.length_eq_zero]

/-- C4: resolving a bet with zero predictions returns normally with an
empty result and performs no balance-increment call. -/
theorem empty_predictions_no_rewards (bet : Bet) :
    distribute_reedz_on_resolution bet [] = .ok [] :=
  distribute_nil bet

/-- C5: `resolve` on a bet whose `is_closed` is false fails with
`InvalidState` (no bet update, no scoring); `place_prediction` on a bet
whose `is_open` is false fails with `InvalidState` (no prediction). -/
theorem lifecycle_invalid_state (user : User) (bet : Bet) (answer value : String)
    (predictions : List Prediction) (now : Nat) :
    (bet.is_closed = false →
      resolve_bet user bet answer predictions now = .error .invalidState) ∧
    (bet.is_open = false →
      place_prediction user bet value now = .error .invalidState) :=
  ⟨fun h => by simp [resolve_bet, h], fun h => by simp [place_prediction, h]⟩

/-- C8 counterexample: `Bet.__init__` stores its flag arguments
verbatim, so the constructor can produce a bet that is simultaneously
open and resolved with no correct answer — violating the §3 state
invariant. -/
theorem bet_constructor_invariant_counterexample :
    ¬ betInvariant (Bet.mk 1 1 "t" "d" "number" true true 0 0 none none false) := by
  unfold betInvariant stateOpen stateClosedNotResolved stateResolved
  decide

/-- C8 amended: the constructor performs no validation, but with the
default optional arguments (`correct_answer = None`, `is_closed =
False`) and `is_resolved = false` — the shape of a newly created open
bet — the constructed value satisfies the invariant. -/
theorem bet_constructor_defaults_invariant (bet_id creator : Nat) (title descr ty : String)
    (opn : Bool) (created closeAt : Nat) :
    betInvariant (Bet.mk bet_id creator title descr ty opn false created closeAt
      none none false) := by
  simp [betInvariant, stateOpen, stateClosedNotResolved, stateResolved]

/-- C10: a non-empty bet whose `answer_type` is neither `"number"` nor
`"text"` falls through both scoring branches: no error, no
balance-increment call. -/
theorem unsupported_answer_type_silent (bet : Bet) (preds : List Prediction)
    (hn : bet.answer_type ≠ "number") (ht : bet.answer_type ≠ "text") (hne : preds ≠ []) :
    distribute_reedz_on_resolution bet preds = .ok [] := by
  simp [distribute_reedz_on_resolution, hn, ht, hne, List.length_eq_zero]

/-- C2: on a text-type bet with an answer present and at most one
prediction per user, a user whose normalised prediction equals the
normalised answer is credited exactly `n + 5` (with `n` the total number
of predictions) and every other predicting user exactly `0`. -/
theorem text_bet_exact_match_scoring (bet : Bet) (preds : List Prediction) (ans : String)
    (hty : bet.answer_type = "text") (hne : preds ≠ [])
    (hca : bet.correct_answer = some ans)
    (hnodup : (preds.map Prediction.user_id).Nodup) :
    ∃ out, distribute_reedz_on_resolution bet preds = .ok out ∧
      ∀ p ∈ preds, totalCredit out p.user_id =
        if pyNormalize p.prediction = pyNormalize ans then (preds.length : Int) + 5
        else 0 := by
  refine ⟨_, distribute_text_ok bet preds ans hty hne hca, ?_⟩
  intro p hp
  have hpart := length_filter_partition
    (fun q => pyNormalize q.prediction = pyNormalize ans) preds
  have hpu := filter_user_eq_singleton preds hnodup p hp
  rw [totalCredit_append, totalCredit_map, totalCredit_map]
  have hm : (preds.filter (fun q => pyNormalize q.prediction = pyNormalize ans)).filter
      (fun q => q.user_id = p.user_id)
      = [p].filter (fun q => pyNormalize q.prediction = pyNormalize ans) := by
    rw [List.filter_filter, ← hpu, List.filter_filter]
    exact List.filter_congr (fun a _ => Bool.and_comm _ _)
  have hn : (preds.filter (fun q => ¬(pyNormalize q.prediction = pyNormalize ans))).filter
      (fun q => q.user_id = p.user_id)
      = [p].filter (fun q => ¬(pyNormalize q.prediction = pyNormalize ans)) := by
    rw [List.filter_filter, ← hpu, List.filter_filter]
    exact List.filter_congr (fun a _ => Bool.and_comm _ _)
  rw [hm, hn]
  by_cases h : pyNormalize p.prediction = pyNormalize ans
  · rw [if_pos h, List.filter_cons_of_pos (by simpa using h),
      List.filter_cons_of_neg (by simp [h])]
    simp only [List.filter_nil, List.map_cons, List.map_nil, List.sum_cons, List.sum_nil]
    rw [hpart]
    ring
  · rw [if_neg h, List.filter_cons_of_neg (by simpa using h),
      List.filter_cons_of_pos (by simp [h]), List.filter_nil]
    simp

/-- C6: text-bet scoring is invariant under changes of surrounding
whitespace and letter case in the correct answer and in every
prediction — two runs on normalisation-equivalent inputs produce the
same call trace. -/
theorem text_scoring_normalization_invariant (bet bet2 : Bet)
    (preds preds2 : List Prediction) (ans ans2 : String)
    (hty : bet.answer_type = "text") (hty2 : bet2.answer_type = "text")
    (hca : bet.correct_answer = some ans) (hca2 : bet2.correct_answer = some ans2)
    (hans : pyNormalize ans = pyNormalize ans2)
    (hrel : List.Forall₂ (fun p q => p.user_id = q.user_id ∧
      pyNormalize p.prediction = pyNormalize q.prediction) preds preds2) :
    distribute_reedz_on_resolution bet preds
      = distribute_reedz_on_resolution bet2 preds2 := by
  by_cases hpe : preds = []
  · subst hpe
    cases hrel
    rw [distribute_nil, distribute_nil]
  · have hne2 : preds2 ≠ [] := by
      intro h
      subst h
      cases hrel
      exact hpe rfl
    rw [distribute_text_ok bet preds ans hty hpe hca,
        distribute_text_ok bet2 preds2 ans2 hty2 hne2 hca2]
    have hfm : List.Forall₂ (fun p q => p.user_id = q.user_id ∧
        pyNormalize p.prediction = pyNormalize q.prediction)
        (preds.filter (fun q => pyNormalize q.prediction = pyNormalize ans))
        (preds2.filter (fun q => pyNormalize q.prediction = pyNormalize ans2)) :=
      forall₂_filter (fun a b hab => by simp only [hab.2, hans]) hrel
    have hfn : List.Forall₂ (fun p q => p.user_id = q.user_id ∧
        pyNormalize p.prediction = pyNormalize q.prediction)
        (preds.filter (fun q => ¬(pyNormalize q.prediction = pyNormalize ans)))
        (preds2.filter (fun q => ¬(pyNormalize q.prediction = pyNormalize ans2))) :=
      forall₂_filter (fun a b hab => by simp only [hab.2, hans]) hrel
    have hlm := hfm.length_eq
    have hln := hfn.length_eq
    refine congrArg Except.ok ?_
    have h1 := map_eq_of_forall₂
      (f := fun p : Prediction => (p.user_id,
        (((preds.filter (fun q => pyNormalize q.prediction = pyNormalize ans)).length +
          (preds.filter
            (fun q => ¬(pyNormalize q.prediction = pyNormalize ans))).length : Nat) :
          Score) + 5))
      (g := fun p : Prediction => (p.user_id,
        (((preds2.filter (fun q => pyNormalize q.prediction = pyNormalize ans2)).length +
          (preds2.filter
            (fun q => ¬(pyNormalize q.prediction = pyNormalize ans2))).length : Nat) :
          Score) + 5))
      (fun a b hab => by simp only [hab.1, hlm, hln]) hfm
    have h2 := map_eq_of_forall₂
      (f := fun p : Prediction => (p.user_id, (0 : Score)))
      (g := fun p : Prediction => (p.user_id, (0 : Score)))
      (fun a b hab => by simp only [hab.1]) hfn
    rw [h1, h2]

/-- C7: every amount a successful scorer run passes to the
balance-increment operation is nonnegative, on every answer type. -/
theorem distributed_amounts_nonneg (bet : Bet) (preds : List Prediction)
    (out : List (Nat × Score))
    (hok : distribute_reedz_on_resolution bet preds = .ok out) :
    ∀ call ∈ out, 0 ≤ call.2 := by
  simp only [distribute_reedz_on_resolution] at hok
  split at hok
  · injection hok with h
    subst h
    intro call hc
    exact absurd hc (List.not_mem_nil call)
  · split at hok
    · -- number branch
      split at hok
      · exact absurd hok (by simp)
      · split at hok
        · exact absurd hok (by simp)
        · split at hok
          · exact absurd hok (by simp)
          · rename_i errPairs hmo
            injection hok with h
            subst h
            intro call hcall
            rcases List.mem_map.1 hcall with ⟨p, hp, rfl⟩
            refine scoreGroups_nonneg _ _ _ _ _ _
              (sortedPositions_nodup _) (fun v => le_refl 0) ?_ p.user_id
            have hlen := mapOption_length _ _ _ hmo
            rw [Nat.zero_add, ← hlen]
            exact List.countP_le_length _
    · split at hok
      · -- text branch
        split at hok
        · exact absurd hok (by simp)
        · injection hok with h
          subst h
          intro call hcall
          rcases List.mem_append.1 hcall with hc2 | hc2
          · rcases List.mem_map.1 hc2 with ⟨q, hq, rfl⟩
            exact add_nonneg (Int.natCast_nonneg _) (by norm_num)
          · rcases List.mem_map.1 hc2 with ⟨q, hq, rfl⟩
            exact le_refl 0
      · injection hok with h
        subst h
        intro call hc
        exact absurd hc (List.not_mem_nil call)

/-- C9: if a user appears in `k > 1` predictions of a number bet, the
scorer makes `k` balance-increment calls for that user, each passing the
single score left in the per-user dict — the score computed from the
user's largest-error prediction — so the total credited is `k` times
that amount, not the sum of per-prediction scores. -/
theorem duplicate_user_number_scoring (bet : Bet) (preds : List Prediction) (ans : String)
    (c : ℚ) (vals : Prediction → ℚ) (u : Nat) (M : ℚ) (k : Nat)
    (hty : bet.answer_type = "number") (hne : preds ≠ [])
    (hca : bet.correct_answer = some ans) (hc : pyFloat ans = some c)
    (hvals : ∀ p ∈ preds, pyFloat p.prediction = some (vals p))
    (hk : k = (preds.filter (fun p => p.user_id = u)).length) (_hk1 : 1 < k)
    (hM : ∃ p ∈ preds, p.user_id = u ∧ |vals p - c| = M)
    (hMmax : ∀ p ∈ preds, p.user_id = u → |vals p - c| ≤ M) :
    ∃ out, distribute_reedz_on_resolution bet preds = .ok out ∧
      out.filter (fun call => call.1 = u)
        = List.replicate k (u,
            ((preds.length : Int) -
              (preds.countP (fun q => decide (|vals q - c| < M)) : Int))
              + (if M = 0 then 5 else 0)) ∧
      totalCredit out u
        = k * (((preds.length : Int) -
              (preds.countP (fun q => decide (|vals q - c| < M)) : Int))
              + (if M = 0 then 5 else 0)) := by
  have hscore := number_scores_closed_form preds c vals hvals u M hM hMmax
  refine ⟨_, distribute_number_ok bet preds ans c vals hty hne hca hc hvals, ?_⟩
  have hrep : (preds.map (fun p => (p.user_id,
      (scoreGroups preds.length c (preds.map (fun q => (|vals q - c|, q)))
        (sortedPositions (preds.map (fun q => (|vals q - c|, q)))) (fun _ => 0, 0)).1
        p.user_id))).filter (fun call => call.1 = u)
      = List.replicate k (u,
          ((preds.length : Int) -
            (preds.countP (fun q => decide (|vals q - c| < M)) : Int))
            + (if M = 0 then 5 else 0)) := by
    rw [List.filter_map]
    have hcp : preds.filter ((fun call : Nat × Score => decide (call.1 = u)) ∘
        (fun p => (p.user_id,
          (scoreGroups preds.length c (preds.map (fun q => (|vals q - c|, q)))
            (sortedPositions (preds.map (fun q => (|vals q - c|, q)))) (fun _ => 0, 0)).1
          p.user_id)))
        = preds.filter (fun p => p.user_id = u) :=
      List.filter_congr (fun a _ => rfl)
    rw [hcp]
    refine List.eq_replicate_iff.2 ⟨by rw [List.length_map, hk], ?_⟩
    intro b hb
    rcases List.mem_map.1 hb with ⟨q, hqf, rfl⟩
    have hqu : q.user_id = u := by
      have := (List.mem_filter.1 hqf).2
      simpa using this
    rw [hqu, hscore]
  refine ⟨hrep, ?_⟩
  simp only [totalCredit]
  rw [hrep, List.map_replicate, List.sum_replicate, nsmul_eq_mul]

/-! ## Witnesses (concrete runs of the scorer and the lifecycle ops) -/

section
attribute [local semireducible] Rat.mul Rat.sub Rat.add Rat.inv

/-- Witness for C1: Scenario A — correct answer 10, predictions u1 ↦ 8,
u2 ↦ 10, u3 ↦ 12 are credited u1 = 2, u2 = 3 + 5 = 8, u3 = 2. -/
theorem number_bet_rank_scoring_witness :
    scenABet.answer_type = "number" ∧ scenAPreds ≠ [] ∧
    scenABet.correct_answer = some "10" ∧ pyFloat "10" = some 10 ∧
    (∀ p ∈ scenAPreds, pyFloat p.prediction = some (scenAVals p)) ∧
    (scenAPreds.map Prediction.user_id).Nodup ∧
    distribute_reedz_on_resolution scenABet scenAPreds
      = .ok [(1, 2), (2, 8), (3, 2)] := by
  refine ⟨rfl, by decide, rfl, by decide, by decide, by decide, ?_⟩
  rw [(number_bet_rank_scoring scenABet scenAPreds "10" 10 scenAVals rfl (by decide) rfl
    (by decide) (by decide) (by decide)).1]
  decide

/-- Witness for C2: Scenario B — answer "Paris" with u1 ↦ "paris" and
u2 ↦ "London" credits u1 = 2 + 5 = 7 and u2 = 0. -/
theorem text_bet_exact_match_scoring_witness :
    scenBBet.answer_type = "text" ∧ scenBPreds ≠ [] ∧
    scenBBet.correct_answer = some "Paris" ∧
    (scenBPreds.map Prediction.user_id).Nodup ∧
    (∃ out, distribute_reedz_on_resolution scenBBet scenBPreds = .ok out ∧
      ∀ p ∈ scenBPreds, totalCredit out p.user_id =
        if pyNormalize p.prediction = pyNormalize "Paris" then (scenBPreds.length : Int) + 5
        else 0) ∧
    distribute_reedz_on_resolution scenBBet scenBPreds = .ok [(1, 7), (2, 0)] :=
  ⟨rfl, by decide, rfl, by decide,
    text_bet_exact_match_scoring scenBBet scenBPreds "Paris" rfl (by decide) rfl (by decide),
    by decide⟩

/-- Witness for C3: Scenario D — a number bet whose correct answer is
"abc" fails with no balance-increment call. -/
theorem malformed_number_answer_fatal_witness :
    scenDBet.answer_type = "number" ∧ scenAPreds ≠ [] ∧
    scenDBet.correct_answer = some "abc" ∧ pyFloat "abc" = none ∧
    distribute_reedz_on_resolution scenDBet scenAPreds = .error .malformedAnswer :=
  ⟨rfl, by decide, rfl, by decide,
    malformed_number_answer_fatal scenDBet scenAPreds "abc" rfl (by decide) rfl (by decide)⟩

/-- Witness for C5: resolving a not-yet-closed bet and predicting on a
closed bet both fail with `InvalidState`. -/
theorem lifecycle_invalid_state_witness :
    openBet.is_closed = false ∧
    resolve_bet memberUser openBet "42" [] 0 = .error .invalidState ∧
    closedBet.is_open = false ∧
    place_prediction memberUser closedBet "42" 0 = .error .invalidState :=
  ⟨rfl, (lifecycle_invalid_state memberUser openBet "42" "42" [] 0).1 rfl,
   rfl, (lifecycle_invalid_state memberUser closedBet "42" "42" [] 0).2 rfl⟩

/-- Witness for C6: answer " PARIS" vs "paris" and prediction "  Paris"
vs "paris " give identical traces (both award 1 + 5 = 6 to user 1). -/
theorem text_scoring_normalization_invariant_witness :
    pyNormalize " PARIS" = pyNormalize "paris" ∧
    distribute_reedz_on_resolution wsBet wsPreds
      = distribute_reedz_on_resolution wsBetNorm wsPredsNorm ∧
    distribute_reedz_on_resolution wsBet wsPreds = .ok [(1, 6)] :=
  ⟨by decide,
   text_scoring_normalization_invariant wsBet wsBetNorm wsPreds wsPredsNorm " PARIS" "paris"
     rfl rfl rfl rfl (by decide)
     (List.Forall₂.cons ⟨rfl, by decide⟩ List.Forall₂.nil),
   by decide⟩

/-- Witness for C7: the Scenario A run succeeds and every credited
amount of its trace is nonnegative. -/
theorem distributed_amounts_nonneg_witness :
    distribute_reedz_on_resolution scenABet scenAPreds = .ok [(1, 2), (2, 8), (3, 2)] ∧
    ∀ call ∈ [((1 : Nat), (2 : Score)), (2, 8), (3, 2)], 0 ≤ call.2 :=
  ⟨by decide, distributed_amounts_nonneg scenABet scenAPreds _ (by decide)⟩

/-- Witness for C9: user 1 predicts both 10 and 12 on a bet resolving to
10 (n = 3, largest error M = 2, k = 2): the trace is
[(1, 1), (1, 1), (2, 8)] — two calls of 1 for user 1, the largest-error
score, total 2 · 1 = 2. -/
theorem duplicate_user_number_scoring_witness :
    (2 : Nat) = (dupPreds.filter (fun p => p.user_id = 1)).length ∧
    (1 : Nat) < 2 ∧
    distribute_reedz_on_resolution scenABet dupPreds = .ok [(1, 1), (1, 1), (2, 8)] ∧
    (∃ out, distribute_reedz_on_resolution scenABet dupPreds = .ok out ∧
      out.filter (fun call => call.1 = 1)
        = List.replicate 2 (1,
            ((dupPreds.length : Int) -
              (dupPreds.countP (fun q => decide (|scenAVals q - 10| < 2)) : Int))
              + (if (2 : ℚ) = 0 then 5 else 0)) ∧
      totalCredit out 1
        = 2 * (((dupPreds.length : Int) -
              (dupPreds.countP (fun q => decide (|scenAVals q - 10| < 2)) : Int))
              + (if (2 : ℚ) = 0 then 5 else 0))) := by
  refine ⟨by decide, by decide, by decide, ?_⟩
  exact duplicate_user_number_scoring scenABet dupPreds "10" 10 scenAVals 1 2 2
    rfl (by decide) rfl (by decide) (by decide) (by decide) (by decide)
    (by decide) (by decide)

/-- Witness for C10: a "yes/no" bet with predictions present resolves
with no error and no balance-increment call. -/
theorem unsupported_answer_type_silent_witness :
    yesNoBet.answer_type ≠ "number" ∧ yesNoBet.answer_type ≠ "text" ∧ scenAPreds ≠ [] ∧
    distribute_reedz_on_resolution yesNoBet scenAPreds = .ok [] :=
  ⟨by decide, by decide, by decide,
    unsupported_answer_type_silent yesNoBet scenAPreds (by decide) (by decide) (by decide)⟩

end
